import Mathlib

/-!
Verification of the liby configuration-language core (`src/liby/y.c`,
`src/liby/y.h`): a shallow embedding of the lexer, the recursive-descent
parser, the tree data model and the path-query engine, with theorems
checking the specification's claims against the code.

Modelling conventions:
* Buffers are `List Char`; C's NUL-terminated reads are `bufGet`, which
  yields the NUL byte at or past the end of the list.
* Machine loops are either structural on a suffix (`eolSteps`) or carry a
  fuel argument sized from the buffer (`data.length + 2` etc.); running out
  of fuel is a distinguished outcome that the faithful executions never hit.
* Borrowed `string_t` slices into a unit's buffer are materialised eagerly
  (`extractS`): later lexing only ever writes at or past the current cursor,
  beyond every completed slice, so a slice's bytes are fixed at token
  creation.
* The file-system collaborator is out of scope (per the interface boundary):
  `y_load` takes the file's contents directly.
* The allocator collaborator is modelled as zero-initialising: the source
  never writes a last sibling's `next`, a bare node's `value`, or the
  sentinel's fields, and relies on them reading as null/zero (`Y_NONE`),
  which is what the model's lists and default values encode.
* `f64` decimal values (C `strtod`) are not modelled; a Decimal value
  records the captured source slice instead.  No claim inspects the number.
* Out-of-bounds pointer scans and reads of non-pointer union members are
  modelled as distinguished outcomes (`overrun`, `undef`, `noReturn`)
  rather than given a defined value, since the C has no defined behaviour
  there.
-/

namespace LibY

/-- The NUL byte.  C buffers are NUL-terminated; reads at or past the end of
the buffer yield 0. -/
def nulChar : Char := Char.ofNat 0

/-- `{` (written via its code point to keep it out of string/char context). -/
def lbrace : Char := Char.ofNat 123

/-- `}` -/
def rbrace : Char := Char.ofNat 125

/-- Read the byte at index `i` of a buffer, as a C pointer read on a
NUL-terminated buffer: positions at or past the end read as NUL. -/
def bufGet (data : List Char) (i : Nat) : Char := data.getD i nulChar

/-- C `isalpha(c) || isdigit(c) || c == '_'` (ASCII, the classes the lexer
uses for identifier continuation). -/
def isTextChar (c : Char) : Bool := c.isAlpha || c.isDigit || c == '_'

/-- C `isdigit(c) || c == '_' || c == '.'` (the numeric scanner's class). -/
def isNumChar (c : Char) : Bool := c.isDigit || c == '_' || c == '.'

/-- The slice `[b, e)` of a buffer: a borrowed `string_t` view materialised. -/
def extractS (data : List Char) (b e : Nat) : List Char := (data.drop b).take (e - b)

/-- Base-10 value of a digit list. -/
def digitsVal (s : List Char) : Nat := s.foldl (fun a c => a * 10 + (c.toNat - 48)) 0

/-- C `strtoull(p, &end, 10)` on a buffer position that starts with a digit:
parses the maximal leading digit run and clamps to `ULLONG_MAX` on
overflow. -/
def strtoull10 (s : List Char) : Nat := min (digitsVal (s.takeWhile Char.isDigit)) (2 ^ 64 - 1)

/-- C `strncmp(a, b, n) == 0`: bytewise comparison of up to `n` bytes,
stopping early at a NUL terminator. -/
def strncmp0 : List Char → List Char → Nat → Bool
  | _, _, 0 => true
  | a, b, n + 1 =>
    let x := a.headD nulChar
    let y := b.headD nulChar
    if x ≠ y then false
    else if x = nulChar then true
    else strncmp0 a.tail b.tail n

/-- C `unit_t` scan state.  `length` is `data.length`; the one-token
lookahead (`previous`/`current`) is threaded explicitly by the parser and
query loops. -/
structure UnitS where
  data : List Char
  start : Nat
  cursor : Nat
  line : Nat

/-- A `unit_t` as `y_load` and `y_find` initialise it (all scan fields 0). -/
def initUnit (data : List Char) : UnitS := ⟨data, 0, 0, 0⟩

/-- The number of chars the comment loop in `raw` steps over before reaching
a newline or the NUL at the end of the buffer. -/
def eolSteps : List Char → Nat
  | [] => 0
  | c :: rest => if c = nulChar ∨ c = '\n' then 0 else eolSteps rest + 1

/-- C `raw`: hand out the byte at the cursor, skipping `//` line comments.
Mirrors the source faithfully, including the `*ch += 2` on the comment
branch, which increments the byte under `ch` in the buffer (turning the
first `/` into `1`) instead of advancing the pointer.  Returns the updated
unit and the index of the char handed back (the unit's cursor always ends
one past that index, as in `unit->data + unit->cursor++`). -/
def raw (u : UnitS) : UnitS × Nat :=
  let i := u.cursor
  let u1 : UnitS := { u with cursor := i + 1 }
  if bufGet u1.data i = '/' ∧ bufGet u1.data (i + 1) = '/' then
    let data2 := u1.data.set i (Char.ofNat ((bufGet u1.data i).toNat + 2))
    let j := i + eolSteps (data2.drop i)
    ({ u1 with data := data2, cursor := j + 1 }, j)
  else (u1, i)

/-- C `next`: `raw` plus whitespace skipping; a newline bumps the line
counter and resets the line-start marker to the following byte.  Fueled; the
cursor strictly grows each round, so `data.length + 2` rounds suffice. -/
def next : Nat → UnitS → Option (UnitS × Nat)
  | 0, _ => Option.none
  | fuel + 1, u =>
    let p := raw u
    let c := bufGet p.1.data p.2
    if c = '\n' then next fuel { p.1 with line := p.1.line + 1, start := p.2 + 1 }
    else if c = '\t' ∨ c = ' ' then next fuel p.1
    else some (p.1, p.2)

/-- C `y_note_t`: an annotation tag, just a name (the `next` sibling link is
modelled by membership in a `List YNote`). -/
structure YNote where
  name : List Char
deriving DecidableEq

mutual
/-- C `y_value_t`: the tagged union.  The tag (`y_kind`) and the active
member are merged into one inductive; `YValue.kind` recovers the tag.
Decimal records the captured source slice (the `strtod` result is a 64-bit
float and is not modelled; no modelled operation reads it). -/
inductive YValue : Type where
  | none : YValue
  | node (children : List YNode) : YValue
  | str (s : List Char) : YValue
  | integer (n : Nat) : YValue
  | decimal (lit : List Char) : YValue

/-- C `y_node_t`: name, ordered note list, value.  The `next` sibling link
is modelled by membership in a `List YNode`; the `parent` back-reference is
set by the parser but read by no operation in the source, so it is omitted. -/
inductive YNode : Type where
  | mk (name : List Char) (note : List YNote) (value : YValue) : YNode
end

/-- C `y_kind`. -/
inductive YKind : Type where
  | none
  | node
  | string
  | integer
  | decimal
deriving DecidableEq

/-- The `kind` field of a `y_value_t`. -/
def YValue.kind : YValue → YKind
  | .none => .none
  | .node _ => .node
  | .str _ => .string
  | .integer _ => .integer
  | .decimal _ => .decimal

def YNode.name : YNode → List Char
  | .mk n _ _ => n

def YNode.note : YNode → List YNote
  | .mk _ nt _ => nt

def YNode.value : YNode → YValue
  | .mk _ _ v => v

/-- C `token` kinds.  The source stores `{`, `}` and `@` as their own
character codes (the unused `TOKEN_DOT`/`TOKEN_OPEN`/... constants are never
produced), modelled by `sym`. -/
inductive TKind : Type where
  | none
  | text
  | number
  | string
  | sym (c : Char)
deriving DecidableEq

/-- C `token_t`.  The value member is set for text/string (a slice) and
number (integer/decimal) tokens and is uninitialised otherwise; the model
uses `YValue.none` there, and no code path reads it.  The source span is
not carried: no modelled operation depends on it. -/
structure Token where
  kind : TKind
  value : YValue

/-- The `value.string` member of a text/string token (`temp->value.string`). -/
def tokStr (t : Token) : List Char :=
  match t.value with
  | .str s => s
  | _ => []

/-- C lexer fatal diagnostics (`fatal_at` terminates the process). -/
inductive LexErr : Type where
  | stringNewline
  | dupDecimal
  | unknownChar (c : Char)
deriving DecidableEq

/-- Outcome of a lexing step.  `overrun` marks the string scan running past
the end of the buffer (the source keeps dereferencing past the allocation:
undefined behaviour, not a diagnostic).  `outOfFuel` is the model's loop
bound; the supplied bounds are never hit by the faithful executions. -/
inductive Res (α : Type) : Type where
  | ok (a : α)
  | fatal (e : LexErr)
  | overrun
  | outOfFuel

/-- The scan loop of C `token_text`: `while (isalpha||isdigit||'_') ch = raw`.
The char under scrutiny is always the one at `cursor - 1` (the last byte
`raw` handed out). -/
def textLoop : Nat → UnitS → Option UnitS
  | 0, _ => Option.none
  | fuel + 1, u =>
    if isTextChar (bufGet u.data (u.cursor - 1)) then textLoop fuel (raw u).1
    else some u

/-- C `token_text`: scan the identifier run, push the terminator back
(`--unit->cursor`), and slice `[begin, end)` out of the (possibly
comment-mutated) buffer. -/
def token_text (u : UnitS) (b : Nat) : Res (UnitS × Token) :=
  match textLoop (u.data.length + 2) u with
  | Option.none => .outOfFuel
  | some u1 =>
    let e := u1.cursor - 1
    (.ok ({ u1 with cursor := e }, ⟨.text, .str (extractS u1.data b e)⟩))

/-- The scan loop of C `token_number`: consume digits, `_` and `.`; a second
`.` is the fatal duplicate-decimal error.  Returns whether a `.` was seen. -/
def numberLoop : Nat → UnitS → Bool → Res (UnitS × Bool)
  | 0, _, _ => .outOfFuel
  | fuel + 1, u, isDec =>
    if isNumChar (bufGet u.data (u.cursor - 1)) then
      let p := raw u
      if bufGet p.1.data p.2 = '.' then
        if isDec then .fatal .dupDecimal
        else numberLoop fuel p.1 true
      else numberLoop fuel p.1 isDec
    else .ok (u, isDec)

/-- C `token_number`: scan the numeric run, push the terminator back, then
decode the captured slice — `strtoull` base 10 for Integer (which stops at
the first non-digit, e.g. an underscore), `strtod` for Decimal (the float
is not modelled; the slice is recorded). -/
def token_number (u : UnitS) (b : Nat) : Res (UnitS × Token) :=
  match numberLoop (u.data.length + 2) u false with
  | .fatal e => .fatal e
  | .overrun => .overrun
  | .outOfFuel => .outOfFuel
  | .ok (u1, isDec) =>
    let e := u1.cursor - 1
    let lit := extractS u1.data b e
    if isDec then .ok ({ u1 with cursor := e }, ⟨.number, .decimal lit⟩)
    else .ok ({ u1 with cursor := e }, ⟨.number, .integer (strtoull10 lit)⟩)

/-- The scan loop of C `token_string`: `while (*(ch = raw(unit)) != '"')`,
with a raw newline fatal.  The source has no end-of-buffer check: when the
scan consumes the terminator position it keeps dereferencing past the
allocation, modelled as `overrun`. -/
def stringLoop : Nat → UnitS → Res (UnitS × Nat)
  | 0, _ => .outOfFuel
  | fuel + 1, u =>
    let p := raw u
    let c := bufGet p.1.data p.2
    if c = '\"' then .ok (p.1, p.2)
    else if c = '\n' then .fatal .stringNewline
    else if p.1.data.length ≤ p.2 then .overrun
    else stringLoop fuel p.1

/-- C `token_string`: the token's value is the slice strictly between the
quotes, `[begin + 1, closing)`, with no escape processing. -/
def token_string (u : UnitS) (b : Nat) : Res (UnitS × Token) :=
  match stringLoop (u.data.length + 2) u with
  | .fatal e => .fatal e
  | .overrun => .overrun
  | .outOfFuel => .outOfFuel
  | .ok (u1, i) => .ok (u1, ⟨.string, .str (extractS u1.data (b + 1) i)⟩)

/-- C `lex_token`: classify the next significant char.  Past-the-end cursors
and the NUL byte give the zero-width EOF token; `{`/`}`/`@` are
single-char tokens carrying their own character as kind; `"` starts a
string; a letter or `_` an identifier; a digit a number; anything else is
the fatal unknown-character error. -/
def lex_token (u : UnitS) : Res (UnitS × Token) :=
  if u.data.length < u.cursor then .ok (u, ⟨.none, .none⟩)
  else
    match next (u.data.length + 2) u with
    | Option.none => .outOfFuel
    | some (u1, i) =>
      let c := bufGet u1.data i
      if c = nulChar then .ok (u1, ⟨.none, .none⟩)
      else if c = lbrace ∨ c = rbrace ∨ c = '@' then .ok (u1, ⟨.sym c, .none⟩)
      else if c = '\"' then token_string u1 i
      else if c.isAlpha ∨ c = '_' then token_text u1 i
      else if c.isDigit then token_number u1 i
      else .fatal (.unknownChar c)

/-- Parse-time terminal outcomes: propagated lexer fatals, the two parse
fatals (`token_expect`'s expected/received mismatch and the unterminated
node list), plus the model's markers. -/
inductive PErr : Type where
  | lexFatal (e : LexErr)
  | overrun
  | outOfFuel
  | expected (want got : TKind)
  | nodeListEnd
deriving DecidableEq

/-- C `token_eat` (via `lex_next`): prefetch the next token, hand back the
previous one.  A lexer fatal aborts the whole load. -/
def token_eat (u : UnitS) (cur : Token) : Except PErr (Token × UnitS × Token) :=
  match lex_token u with
  | .ok (u1, t) => .ok (cur, u1, t)
  | .fatal e => .error (.lexFatal e)
  | .overrun => .error .overrun
  | .outOfFuel => .error .outOfFuel

/-- C `parse_note`: `while (token_consume(unit, '@')) { expect TEXT }`,
appending annotations in encounter order. -/
def parse_note : Nat → UnitS → Token → Except PErr (List YNote × UnitS × Token)
  | 0, _, _ => .error .outOfFuel
  | fuel + 1, u, cur =>
    if cur.kind = .sym '@' then
      match token_eat u cur with
      | .error e => .error e
      | .ok (_, u1, c1) =>
        if c1.kind = .text then
          match token_eat u1 c1 with
          | .error e => .error e
          | .ok (t, u2, c2) =>
            match parse_note fuel u2 c2 with
            | .error e => .error e
            | .ok (rest, u3, c3) => .ok (⟨tokStr t⟩ :: rest, u3, c3)
        else .error (.expected .text c1.kind)
    else .ok ([], u, cur)

mutual
/-- C `parse_node`: mandatory TEXT name, then either a `{ ... }` child list
(value kind Node, children possibly empty), or one NUMBER, or one STRING,
or nothing (value None); trailing `@` annotations attach last. -/
def parse_node : Nat → UnitS → Token → Except PErr (YNode × UnitS × Token)
  | 0, _, _ => .error .outOfFuel
  | fuel + 1, u, cur =>
    if cur.kind = .text then
      match token_eat u cur with
      | .error e => .error e
      | .ok (nameTok, u1, c1) =>
        if c1.kind = .sym lbrace then
          match token_eat u1 c1 with
          | .error e => .error e
          | .ok (_, u2, c2) =>
            match parse_children fuel u2 c2 with
            | .error e => .error e
            | .ok (cs, u3, c3) =>
              match parse_note fuel u3 c3 with
              | .error e => .error e
              | .ok (nts, u4, c4) => .ok (.mk (tokStr nameTok) nts (.node cs), u4, c4)
        else if c1.kind = .number then
          match token_eat u1 c1 with
          | .error e => .error e
          | .ok (numTok, u2, c2) =>
            match parse_note fuel u2 c2 with
            | .error e => .error e
            | .ok (nts, u3, c3) => .ok (.mk (tokStr nameTok) nts numTok.value, u3, c3)
        else if c1.kind = .string then
          match token_eat u1 c1 with
          | .error e => .error e
          | .ok (strTok, u2, c2) =>
            match parse_note fuel u2 c2 with
            | .error e => .error e
            | .ok (nts, u3, c3) => .ok (.mk (tokStr nameTok) nts strTok.value, u3, c3)
        else
          match parse_note fuel u1 c1 with
          | .error e => .error e
          | .ok (nts, u2, c2) => .ok (.mk (tokStr nameTok) nts .none, u2, c2)
    else .error (.expected .text cur.kind)

/-- The child-list loop of C `parse_node`:
`while (!token_consume(unit, '}')) { if (token_consume(unit, TOKEN_NONE))
fatal; append parse_node }`. -/
def parse_children : Nat → UnitS → Token → Except PErr (List YNode × UnitS × Token)
  | 0, _, _ => .error .outOfFuel
  | fuel + 1, u, cur =>
    if cur.kind = .sym rbrace then
      match token_eat u cur with
      | .error e => .error e
      | .ok (_, u1, c1) => .ok ([], u1, c1)
    else if cur.kind = .none then .error .nodeListEnd
    else
      match parse_node fuel u cur with
      | .error e => .error e
      | .ok (child, u1, c1) =>
        match parse_children fuel u1 c1 with
        | .error e => .error e
        | .ok (rest, u2, c2) => .ok (child :: rest, u2, c2)
end

/-- Fuel bound for a parse of `data`: every recursive entry consumes at
least one token and every token at least one cursor position. -/
def parseFuel (data : List Char) : Nat := 4 * data.length + 8

/-- C `parse_unit` together with `y_load`'s initial `lex_next` prefetch:
exactly one top-level node followed by EOF (`token_expect(TOKEN_NONE)`,
whose final `token_eat` is also performed, as in the source). -/
def parse_unit (data : List Char) : Except PErr YNode :=
  match lex_token (initUnit data) with
  | .fatal e => .error (.lexFatal e)
  | .overrun => .error .overrun
  | .outOfFuel => .error .outOfFuel
  | .ok (u1, t1) =>
    match parse_node (parseFuel data) u1 t1 with
    | .error e => .error e
    | .ok (node, u2, c2) =>
      if c2.kind = .none then
        match token_eat u2 c2 with
        | .error e => .error e
        | .ok _ => .ok node
      else .error (.expected .none c2.kind)

/-- C `yctx_t`.  `roots` is the sentinel's `next` chain: the forest of
loaded roots in load order.  In memory root `i`'s `next` points to root
`i+1` (spliced by `y_load`), the last root's `next` is null, and the
context's `heads` field points at the LAST loaded root (it is the append
tail), or at the zero-initialised sentinel when nothing was loaded. -/
structure Ctx where
  roots : List YNode

/-- C `y_create`: empty forest (the unit collection is lifetime bookkeeping
only and is not modelled). -/
def y_create : Ctx := ⟨[]⟩

/-- C `y_load`, with the file-system collaborator abstracted away: `data`
is the file's contents.  Parses one root and appends it at the forest
tail. -/
def y_load (ctx : Ctx) (data : List Char) : Except PErr (YNode × Ctx) :=
  match parse_unit data with
  | .error e => .error e
  | .ok root => .ok (root, ⟨ctx.roots ++ [root]⟩)

/-- Load a list of units in order onto a context. -/
def loadAll : Ctx → List (List Char) → Except PErr Ctx
  | ctx, [] => .ok ctx
  | ctx, d :: rest =>
    match y_load ctx d with
    | .error e => .error e
    | .ok (_, ctx1) => loadAll ctx1 rest

/-- A context built by loading the given units in order onto a fresh one. -/
def buildCtx (files : List (List Char)) : Except PErr Ctx := loadAll y_create files

/-- The zero-initialised `ctx.root` sentinel node. -/
def sentinel : YNode := .mk [] [] .none

/-- The node list `y_find` scans at top level: `current = y->heads` is the
tail pointer — the most recently loaded root, whose `next` link is null, so
the scan sees exactly that one root; on a fresh context it is the sentinel
itself (whose `next` is null until a load). -/
def topScan (ctx : Ctx) : List YNode :=
  match ctx.roots.getLast? with
  | some r => [r]
  | Option.none => [sentinel]

/-- The `for (it = current; it; it = it->next)` name scan in `y_find`:
match by length, then `strncmp` content. -/
def scanName : List YNode → List Char → Option YNode
  | [], _ => Option.none
  | n :: rest, s =>
    if s.length = n.name.length ∧ strncmp0 s n.name n.name.length = true then some n
    else scanName rest s

/-- Reading `it->value.node` through the union for `y_find`'s descent.
For kind Node this is the child list; for kind None the union's bytes are
zero — a null pointer, i.e. the empty sibling list.  For Integer the u64 is
reinterpreted as the pointer (null exactly for 0); a String's slice pointer
is never null and a Decimal's bit pattern is garbage: iterating those is
undefined behaviour, modelled as `none`. -/
def descend : YValue → Option (List YNode)
  | .node cs => some cs
  | .none => some []
  | .integer n => if n = 0 then some [] else Option.none
  | .str _ => Option.none
  | .decimal _ => Option.none

/-- Outcome of `y_find`.  `notFound` is the null return; `fatalLex` is a
`fatal_at` raised while lexing the path; `noReturn` marks the loop exiting
with no `return` statement (the function has no value there); `undef` marks
a descent through a non-null scalar bit pattern; `overrun`/`outOfFuel` as
in `Res`. -/
inductive FindRes : Type where
  | found (n : YNode)
  | notFound
  | fatalLex (e : LexErr)
  | overrun
  | outOfFuel
  | noReturn
  | undef

/-- The `while ((temp = token_consume(&unit, TOKEN_TEXT)))` loop of
C `y_find`: eat the segment (prefetching the following token), scan the
current sibling list, return the match when the path is exhausted,
otherwise descend through the union. -/
def findLoop : Nat → UnitS → Token → List YNode → FindRes
  | 0, _, _, _ => .outOfFuel
  | fuel + 1, u, cur, nodes =>
    if cur.kind = .text then
      match lex_token u with
      | .fatal e => .fatalLex e
      | .overrun => .overrun
      | .outOfFuel => .outOfFuel
      | .ok (u1, nxt) =>
        match scanName nodes (tokStr cur) with
        | some n =>
          if nxt.kind = .none then .found n
          else
            match descend n.value with
            | some cs => findLoop fuel u1 nxt cs
            | Option.none => .undef
        | Option.none => .notFound
    else .noReturn

/-- C `y_find`: lex the path string with the file lexer (initial `lex_next`
prefetch), then walk the forest from `y->heads`. -/
def y_find (ctx : Ctx) (path : List Char) : FindRes :=
  match lex_token (initUnit path) with
  | .fatal e => .fatalLex e
  | .overrun => .overrun
  | .outOfFuel => .outOfFuel
  | .ok (u1, t1) => findLoop (path.length + 2) u1 t1 (topScan ctx)

/-- The note scan of C `y_has`: first note matching by length then
`strncmp` content. -/
def y_has_scan : List YNote → List Char → Option YNote
  | [], _ => Option.none
  | nt :: rest, s =>
    if nt.name.length = s.length ∧ strncmp0 nt.name s s.length = true then some nt
    else y_has_scan rest s

/-- C `y_has`. -/
def y_has (node : YNode) (note : List Char) : Option YNote := y_has_scan node.note note

/-! ## Structural lemmas about the lexer -/

theorem bufGet_ne_nul_lt {data : List Char} {i : Nat} (h : bufGet data i ≠ nulChar) :
    i < data.length := by
  by_contra hlt
  push_neg at hlt
  exact h (List.getD_eq_default _ _ hlt)

theorem raw_data_length (u : UnitS) : ((raw u).1).data.length = u.data.length := by
  unfold raw
  dsimp only
  split
  · simp
  · rfl

theorem raw_cursor_ge (u : UnitS) : u.cursor + 1 ≤ ((raw u).1).cursor := by
  unfold raw
  dsimp only
  split
  · dsimp only
    omega
  · exact Nat.le_refl _

theorem raw_cursor_eq (u : UnitS) : ((raw u).1).cursor = (raw u).2 + 1 := by
  unfold raw
  dsimp only
  split
  · rfl
  · rfl

theorem textLoop_cursor_mono :
    ∀ (f : Nat) (u u1 : UnitS), textLoop f u = some u1 → u.cursor ≤ u1.cursor := by
  intro f
  induction f with
  | zero => intro u u1 h; exact absurd h (by simp [textLoop])
  | succ n ih =>
    intro u u1 h
    rw [textLoop] at h
    split at h
    · exact le_trans (Nat.le_of_lt (raw_cursor_ge u)) (ih _ _ h)
    · cases h
      exact Nat.le_refl _

theorem textLoop_data_length :
    ∀ (f : Nat) (u u1 : UnitS), textLoop f u = some u1 → u1.data.length = u.data.length := by
  intro f
  induction f with
  | zero => intro u u1 h; exact absurd h (by simp [textLoop])
  | succ n ih =>
    intro u u1 h
    rw [textLoop] at h
    split at h
    · exact (ih _ _ h).trans (raw_data_length u)
    · cases h
      rfl

theorem next_post :
    ∀ (f : Nat) (u u1 : UnitS) (i : Nat), next f u = some (u1, i) →
      u1.cursor = i + 1 ∧ u1.data.length = u.data.length := by
  intro f
  induction f with
  | zero => intro u u1 i h; exact absurd h (by simp [next])
  | succ n ih =>
    intro u u1 i h
    rw [next] at h
    split at h
    · obtain ⟨h1, h2⟩ := ih _ _ _ h
      exact ⟨h1, h2.trans (raw_data_length u)⟩
    · split at h
      · obtain ⟨h1, h2⟩ := ih _ _ _ h
        exact ⟨h1, h2.trans (raw_data_length u)⟩
      · cases h
        exact ⟨(raw_cursor_eq u), raw_data_length u⟩

theorem isTextChar_of_head {c : Char} (h : c.isAlpha = true ∨ c = '_') :
    isTextChar c = true := by
  rcases h with h | h
  · simp [isTextChar, h]
  · subst h; decide

theorem head_ne_nul {c : Char} (h : c.isAlpha = true ∨ c = '_') : c ≠ nulChar := by
  rintro rfl
  rcases h with h | h
  · exact absurd h (by decide)
  · exact absurd h (by decide)

/-- Injectivity of `Res.ok` on the token component. -/
theorem resOk_snd {α β : Type} {a c : α} {b d : β}
    (h : Res.ok (a, b) = Res.ok (c, d)) : b = d := by
  injection h with h1
  exact congrArg Prod.snd h1

/-- Every token the lexer hands out has the value member its kind implies:
text and string tokens carry a slice, number tokens an Integer or a
Decimal, and a text token's slice (the identifier) is non-empty. -/
theorem lex_token_shape :
    ∀ {u u1 : UnitS} {t : Token}, lex_token u = .ok (u1, t) →
      (t.kind = .number → (∃ n, t.value = .integer n) ∨ (∃ l, t.value = .decimal l)) ∧
      (t.kind = .string → ∃ s, t.value = .str s) ∧
      (t.kind = .text → (∃ s, t.value = .str s) ∧ 1 ≤ (tokStr t).length) := by
  intro u u1 t h
  unfold lex_token at h
  split at h
  · have ht := (resOk_snd h).symm
    subst ht
    exact ⟨fun hk => (nomatch hk), fun hk => (nomatch hk), fun hk => (nomatch hk)⟩
  · split at h
    · exact nomatch h
    · rename_i u2 i hnext
      dsimp only at h
      split at h
      · have ht := (resOk_snd h).symm
        subst ht
        exact ⟨fun hk => (nomatch hk), fun hk => (nomatch hk), fun hk => (nomatch hk)⟩
      · split at h
        · have ht := (resOk_snd h).symm
          subst ht
          exact ⟨fun hk => (nomatch hk), fun hk => (nomatch hk), fun hk => (nomatch hk)⟩
        · split at h
          · -- string token
            unfold token_string at h
            split at h
            · exact nomatch h
            · exact nomatch h
            · exact nomatch h
            · have ht := (resOk_snd h).symm
              subst ht
              exact ⟨fun hk => (nomatch hk), fun _ => ⟨_, rfl⟩, fun hk => (nomatch hk)⟩
          · split at h
            · -- text token
              rename_i hAlpha
              unfold token_text at h
              split at h
              · exact nomatch h
              · rename_i u3 hT
                have ht := (resOk_snd h).symm
                subst ht
                refine ⟨fun hk => (nomatch hk), fun hk => (nomatch hk), fun _ => ⟨⟨_, rfl⟩, ?_⟩⟩
                -- non-emptiness of the identifier slice
                have hcur : u2.cursor = i + 1 := (next_post _ _ _ _ hnext).1
                have hi : i < u2.data.length := bufGet_ne_nul_lt (head_ne_nul hAlpha)
                rw [textLoop] at hT
                rw [if_pos (by rw [hcur]; simpa using isTextChar_of_head hAlpha)] at hT
                have hmono := textLoop_cursor_mono _ _ _ hT
                have hraw := raw_cursor_ge u2
                have hlenT := textLoop_data_length _ _ _ hT
                have hlenR := raw_data_length u2
                simp only [tokStr, extractS, List.length_take, List.length_drop]
                omega
            · split at h
              · -- number token
                unfold token_number at h
                split at h
                · exact nomatch h
                · exact nomatch h
                · exact nomatch h
                · dsimp only at h
                  split at h
                  · have ht := (resOk_snd h).symm
                    subst ht
                    exact ⟨fun _ => Or.inr ⟨_, rfl⟩, fun hk => (nomatch hk), fun hk => (nomatch hk)⟩
                  · have ht := (resOk_snd h).symm
                    subst ht
                    exact ⟨fun _ => Or.inl ⟨_, rfl⟩, fun hk => (nomatch hk), fun hk => (nomatch hk)⟩
              · exact nomatch h

/-- Unfolding `token_eat` on a success: the handed-back token is the
previous current one and the new lookahead comes from `lex_token`. -/
theorem token_eat_ok :
    ∀ {u : UnitS} {cur prev : Token} {u1 : UnitS} {t1 : Token},
      token_eat u cur = .ok (prev, u1, t1) →
      prev = cur ∧ lex_token u = .ok (u1, t1) := by
  intro u cur prev u1 t1 h
  unfold token_eat at h
  split at h
  · rename_i u2 t2 hlex
    injection h with h1
    simp only [Prod.mk.injEq] at h1
    obtain ⟨h2, h3, h4⟩ := h1
    subst h2; subst h3; subst h4
    exact ⟨rfl, hlex⟩
  · exact nomatch h
  · exact nomatch h
  · exact nomatch h

/-- The lexer is a function: two successes on one state agree. -/
theorem lex_det {u ua u' : UnitS} {ta t' : Token}
    (hlex : lex_token u = .ok (ua, ta)) (hl : lex_token u = .ok (u', t')) :
    u' = ua ∧ t' = ta := by
  rw [hlex] at hl
  injection hl with h1
  simp only [Prod.mk.injEq] at h1
  exact ⟨h1.1.symm, h1.2.symm⟩

/-- On names free of NUL bytes (as every lexed name is), `strncmp` equality
at the common length is exactly bytewise list equality. -/
theorem strncmp0_eq_iff :
    ∀ (a b : List Char), nulChar ∉ a → a.length = b.length →
      (strncmp0 a b b.length = true ↔ a = b) := by
  intro a
  induction a with
  | nil =>
    intro b hnul hlen
    have hb : b = [] := by
      cases b with
      | nil => rfl
      | cons y ys => exact absurd hlen (by simp)
    subst hb
    simp [strncmp0]
  | cons x xs ih =>
    intro b hnul hlen
    cases b with
    | nil => exact absurd hlen (by simp)
    | cons y ys =>
      have hx : x ≠ nulChar := fun hx => hnul (by simp [hx])
      have hxs : nulChar ∉ xs := fun hm => hnul (by simp [hm])
      have hlen2 : xs.length = ys.length := by simpa using hlen
      simp only [List.length_cons]
      rw [strncmp0]
      simp only [List.headD_cons, List.tail_cons]
      by_cases hxy : x = y
      · subst hxy
        rw [if_neg (by simp), if_neg hx]
        rw [ih ys hxs hlen2]
        simp
      · rw [if_pos (by simpa using hxy)]
        simp [hxy]

/-- The scan of `y_has` is `List.find?` on name equality, for note lists
whose names contain no NUL byte. -/
theorem y_has_scan_find :
    ∀ (l : List YNote) (q : List Char), (∀ nt ∈ l, nulChar ∉ nt.name) →
      y_has_scan l q = l.find? (fun nt => nt.name == q) := by
  intro l q hnul
  induction l with
  | nil => rfl
  | cons nt rest ih =>
    have hnt : nulChar ∉ nt.name := hnul nt (by simp)
    have hrest : ∀ x ∈ rest, nulChar ∉ x.name := fun x hx => hnul x (by simp [hx])
    by_cases heq : nt.name = q
    · have hlen : nt.name.length = q.length := congrArg List.length heq
      rw [y_has_scan, if_pos ⟨hlen, (strncmp0_eq_iff nt.name q hnt hlen).mpr heq⟩]
      rw [List.find?_cons_of_pos _ (by simp [heq])]
    · rw [y_has_scan, if_neg (by
        rintro ⟨hlen, hcmp⟩
        exact heq ((strncmp0_eq_iff nt.name q hnt hlen).mp hcmp))]
      rw [List.find?_cons_of_neg _ (by simp [heq])]
      exact ih hrest

/-- `raw` outside a comment: plain cursor advance. -/
theorem raw_nocomment {u : UnitS}
    (h : ¬(bufGet u.data u.cursor = '/' ∧ bufGet u.data (u.cursor + 1) = '/')) :
    raw u = ({ u with cursor := u.cursor + 1 }, u.cursor) := by
  unfold raw
  dsimp only
  rw [if_neg h]

/-- A numeric-class byte is not a slash (so the scan's `raw` calls inside a
numeric run never take the comment branch). -/
theorem numChar_ne_slash {c : Char} (h : isNumChar c = true) : c ≠ '/' := by
  intro hx
  subst hx
  exact absurd h (by decide)

/-- Running the numeric scan over a run of `k` digit-class bytes, none of
them a dot, with a non-numeric terminator that does not open a comment:
the loop stops with the cursor one past the terminator and the decimal
flag unchanged. -/
theorem numberLoop_run :
    ∀ (k fuel : Nat) (u : UnitS) (c : Nat) (isDec : Bool),
      u.cursor = c + 1 →
      k + 1 ≤ fuel →
      (∀ j, j < k → isNumChar (bufGet u.data (c + j)) = true ∧ bufGet u.data (c + j) ≠ '.') →
      isNumChar (bufGet u.data (c + k)) = false →
      ¬(bufGet u.data (c + k) = '/' ∧ bufGet u.data (c + k + 1) = '/') →
      numberLoop fuel u isDec = .ok ({ u with cursor := c + k + 1 }, isDec) := by
  intro k
  induction k with
  | zero =>
    intro fuel u c isDec hc hf hrun hterm hsl
    cases fuel with
    | zero => exact absurd hf (by omega)
    | succ fuel =>
      rw [numberLoop, hc]
      simp only [Nat.add_sub_cancel]
      rw [if_neg (by simp only [Nat.add_zero] at hterm; simp [hterm])]
      obtain ⟨d, st, cu, ln⟩ := u
      simp only at hc
      subst hc
      rfl
  | succ k ih =>
    intro fuel u c isDec hc hf hrun hterm hsl
    cases fuel with
    | zero => exact absurd hf (by omega)
    | succ fuel =>
      rw [numberLoop, hc]
      simp only [Nat.add_sub_cancel]
      have h0 := hrun 0 (by omega)
      simp only [Nat.add_zero] at h0
      rw [if_pos h0.1]
      have hdot : bufGet u.data (c + 1) ≠ '.' := by
        cases k with
        | zero =>
          intro hx
          have : isNumChar (bufGet u.data (c + 1)) = false := hterm
          rw [hx] at this
          exact absurd this (by decide)
        | succ k2 => exact (hrun 1 (by omega)).2
      have hnc : ¬(bufGet u.data u.cursor = '/' ∧ bufGet u.data (u.cursor + 1) = '/') := by
        rw [hc]
        cases k with
        | zero => exact hsl
        | succ k2 =>
          rintro ⟨h1, h2⟩
          exact numChar_ne_slash (hrun 1 (by omega)).1 h1
      rw [raw_nocomment hnc, hc]
      dsimp only
      rw [if_neg hdot]
      have hih := ih fuel { u with cursor := c + 1 + 1 } (c + 1) isDec rfl (by omega)
        (fun j hj => by
          have := hrun (j + 1) (by omega)
          rwa [show c + (j + 1) = c + 1 + j by omega] at this)
        (by rwa [show c + 1 + k = c + (k + 1) by omega])
        (by rw [show c + 1 + k = c + (k + 1) by omega]; exact hsl)
      rw [hih]
      rw [show c + 1 + k + 1 = c + (k + 1) + 1 by omega]

/-! ## Claim theorems -/

/-- C1: the claim says `find` resolves the first path segment by scanning
the forest of ALL loaded roots from the forest head, so the first loaded
root is found as well as the second.  The code instead starts the scan at
`y->heads`, which after `y_load`'s `y->heads = y->heads->next = head` is
the tail pointer to the most recently loaded root, whose `next` link is
null: after loading `a 1` and then `b 2`, `find "b"` succeeds but
`find "a"` returns null even though root `a` is in the forest chain. -/
theorem c1_find_scans_tail_only :
    buildCtx [("a 1".toList), ("b 2".toList)] =
      .ok ⟨[.mk ("a".toList) [] (.integer 1), .mk ("b".toList) [] (.integer 2)]⟩ ∧
    y_find ⟨[.mk ("a".toList) [] (.integer 1), .mk ("b".toList) [] (.integer 2)]⟩
      ("b".toList) = .found (.mk ("b".toList) [] (.integer 2)) ∧
    y_find ⟨[.mk ("a".toList) [] (.integer 1), .mk ("b".toList) [] (.integer 2)]⟩
      ("a".toList) = .notFound :=
  ⟨rfl, rfl, rfl⟩

/-- C2 counterexample: the claim's invariant "`value.kind == Node` iff the
node has a non-empty child list" fails on `a { }`: the parser sets kind
Node for every brace block, including an empty one, so the parsed node has
kind Node with an empty child list. -/
theorem c2_counterexample :
    ¬ (∀ (data : List Char) (n : YNode), parse_unit data = .ok n →
        (n.value.kind = YKind.node ↔ ∃ cs, n.value = .node cs ∧ cs ≠ [])) := by
  intro h
  have h2 := h ("a \x7b \x7d".toList) (.mk ("a".toList) [] (.node [])) rfl
  obtain ⟨cs, hcs, hne⟩ := h2.mp rfl
  injection hcs with h4
  exact hne h4.symm

/-- C3 counterexample: the claim says a non-final segment matching a
non-container still descends with an empty child list and `find` returns
the absent result.  For a matched node holding a scalar (here Integer 42)
the code reads `it->value.node` out of the union: the integer's bit
pattern is a non-null garbage pointer and the next segment's scan
dereferences it — undefined behaviour, not the absent result. -/
theorem c3_counterexample :
    buildCtx [("r \x7b b 42 \x7d".toList)] =
      .ok ⟨[.mk ("r".toList) [] (.node [.mk ("b".toList) [] (.integer 42)])]⟩ ∧
    y_find ⟨[.mk ("r".toList) [] (.node [.mk ("b".toList) [] (.integer 42)])]⟩
      ("r b x".toList) = .undef ∧
    FindRes.undef ≠ FindRes.notFound :=
  ⟨rfl, rfl, fun h => nomatch h⟩

/-- C4: the claim says skipping a `//` comment advances the cursor and
leaves every byte of the buffer unchanged.  The code's comment branch
executes `*ch += 2`, which increments the byte under the cursor instead of
the pointer: lexing `//x\nb` does skip the comment and the newline
(cursor 5, line 1, line start 4, next token the identifier `b`), but the
buffer comes back as `1/x\nb` — its first byte was changed from `/` to
`1`. -/
theorem c4_comment_skip_mutates :
    lex_token (initUnit ("//x\nb".toList)) =
      .ok (⟨"1/x\nb".toList, 4, 5, 1⟩, ⟨.text, .str ("b".toList)⟩) ∧
    "1/x\nb".toList ≠ "//x\nb".toList :=
  ⟨rfl, by decide⟩

/-- C5: a raw newline inside a string literal is the fatal
"strings can not contain a new line" error, and a terminated string's value
is the slice strictly between the quotes; but an unterminated string that
reaches the end of the buffer is NOT a fatal error — the scan loop checks
only for `"` and `\n`, so it runs past the end of the buffer (undefined
behaviour, `overrun` in the model) instead of raising a diagnostic. -/
theorem c5_string_lexing :
    lex_token (initUnit ("\"a\nb\"".toList)) = .fatal .stringNewline ∧
    lex_token (initUnit ("\"ab".toList)) = Res.overrun ∧
    lex_token (initUnit ("\"ab\"".toList)) =
      .ok (⟨"\"ab\"".toList, 0, 4, 0⟩, ⟨.string, .str ("ab".toList)⟩) :=
  ⟨rfl, rfl, rfl⟩

/-- C6 counterexample: the claim says underscores are insignificant digit
separators, so `1_000` decodes to 1000.  The scanner does accept the
underscore into the literal, but the decode is `strtoull`, which stops at
the first non-digit: the parsed value of `a 1_000` is Integer 1, not
Integer 1000. -/
theorem c6_counterexample :
    parse_unit ("a 1_000".toList) = .ok (.mk ("a".toList) [] (.integer 1)) ∧
    parse_unit ("a 1_000".toList) ≠ .ok (.mk ("a".toList) [] (.integer 1000)) := by
  refine ⟨rfl, fun h => ?_⟩
  rw [show parse_unit ("a 1_000".toList) = .ok (.mk ("a".toList) [] (.integer 1)) from rfl] at h
  injection h with h1
  injection h1 with hn hnt hv
  injection hv with h3
  omega

/-- C7: the five source forms produce the five scalar kinds exactly as the
claim states — `a { }` is a Node with an empty child list, `a 42` an
Integer, `a 4.2` a Decimal, `a "s"` a String, bare `a` None (the kinds are
mutually exclusive: a `y_value_t` carries exactly one tag) — and a NUMBER
followed by a STRING after one name is rejected: the unit parser's final
`expect(TOKEN_NONE)` raises the fatal expected/received mismatch. -/
theorem c7_scalar_kinds :
    parse_unit ("a \x7b \x7d".toList) = .ok (.mk ("a".toList) [] (.node [])) ∧
    parse_unit ("a 42".toList) = .ok (.mk ("a".toList) [] (.integer 42)) ∧
    parse_unit ("a 4.2".toList) = .ok (.mk ("a".toList) [] (.decimal ("4.2".toList))) ∧
    parse_unit ("a \"s\"".toList) = .ok (.mk ("a".toList) [] (.str ("s".toList))) ∧
    parse_unit ("a".toList) = .ok (.mk ("a".toList) [] .none) ∧
    parse_unit ("a 42 \"s\"".toList) = .error (.expected .none .string) :=
  ⟨rfl, rfl, rfl, rfl, rfl, rfl⟩

/-- C2 (amended): for every node produced by `parse_node`, `value.kind` is
`Node` iff the token after the node's name is `{` (i.e. the source form had
a brace block) — the child list may then be empty, as in `name { }`; and a
name followed by none of `{`, NUMBER, STRING yields `value.kind == None`.
In particular a node with a non-empty child list does have kind Node, but
the converse direction of the claim's iff fails (see the counterexample). -/
theorem c2_amended_thm :
    ∀ (fuel : Nat) (u : UnitS) (cur : Token) (n : YNode) (u1 : UnitS) (c1 : Token),
      parse_node fuel u cur = .ok (n, u1, c1) →
      (n.value.kind = YKind.node ↔
          ∃ u' t', lex_token u = Res.ok (u', t') ∧ t'.kind = TKind.sym lbrace) ∧
      ((∃ u' t', lex_token u = Res.ok (u', t') ∧ t'.kind ≠ TKind.sym lbrace ∧
           t'.kind ≠ TKind.number ∧ t'.kind ≠ TKind.string) → n.value = YValue.none) := by
  intro fuel u cur n u1 c1 h
  match fuel with
  | 0 => exact nomatch h
  | fuel + 1 =>
    rw [parse_node] at h
    split at h
    · split at h
      · exact nomatch h
      · rename_i nameTok ua ta heat
        obtain ⟨hprev, hlex⟩ := token_eat_ok heat
        split at h
        · -- brace block: value is Node
          rename_i hbrace
          split at h
          · exact nomatch h
          · split at h
            · exact nomatch h
            · rename_i cs u3 c3 hch
              split at h
              · exact nomatch h
              · rename_i nts u4 c4 hnt
                injection h with h1
                simp only [Prod.mk.injEq] at h1
                obtain ⟨h2, h3, h4⟩ := h1
                subst h2
                constructor
                · exact ⟨fun _ => ⟨ua, ta, hlex, hbrace⟩, fun _ => rfl⟩
                · rintro ⟨u', t', hl, hne, h5, h6⟩
                  obtain ⟨h7, h8⟩ := lex_det hlex hl
                  subst h8
                  exact absurd hbrace hne
        · split at h
          · -- scalar NUMBER: value is the number token's Integer/Decimal
            rename_i hnbrace hnum
            split at h
            · exact nomatch h
            · rename_i numTok u2 c2 heat2
              obtain ⟨hprev2, hlex2⟩ := token_eat_ok heat2
              subst hprev2
              split at h
              · exact nomatch h
              · rename_i nts u3 c3 hnt
                injection h with h1
                simp only [Prod.mk.injEq] at h1
                obtain ⟨h2, h3, h4⟩ := h1
                subst h2
                have hshape := (lex_token_shape hlex).1 hnum
                constructor
                · constructor
                  · intro hk
                    exfalso
                    rcases hshape with ⟨m, hv⟩ | ⟨l, hv⟩ <;>
                      simp only [YNode.value, hv, YValue.kind] at hk <;> exact nomatch hk
                  · rintro ⟨u', t', hl, hbr⟩
                    obtain ⟨h7, h8⟩ := lex_det hlex hl
                    subst h8
                    rw [hnum] at hbr
                    exact nomatch hbr
                · rintro ⟨u', t', hl, h5, hne, h6⟩
                  obtain ⟨h7, h8⟩ := lex_det hlex hl
                  subst h8
                  exact absurd hnum hne
          · split at h
            · -- scalar STRING: value is the string token's slice
              rename_i hnbrace hnnum hstr
              split at h
              · exact nomatch h
              · rename_i strTok u2 c2 heat2
                obtain ⟨hprev2, hlex2⟩ := token_eat_ok heat2
                subst hprev2
                split at h
                · exact nomatch h
                · rename_i nts u3 c3 hnt
                  injection h with h1
                  simp only [Prod.mk.injEq] at h1
                  obtain ⟨h2, h3, h4⟩ := h1
                  subst h2
                  have hshape := ((lex_token_shape hlex).2).1 hstr
                  constructor
                  · constructor
                    · intro hk
                      exfalso
                      obtain ⟨s, hv⟩ := hshape
                      simp only [YNode.value, hv, YValue.kind] at hk
                      exact nomatch hk
                    · rintro ⟨u', t', hl, hbr⟩
                      obtain ⟨h7, h8⟩ := lex_det hlex hl
                      subst h8
                      rw [hstr] at hbr
                      exact nomatch hbr
                  · rintro ⟨u', t', hl, h5, h6, hne⟩
                    obtain ⟨h7, h8⟩ := lex_det hlex hl
                    subst h8
                    exact absurd hstr hne
            · -- bare name: value is None
              rename_i hnbrace hnnum hnstr
              split at h
              · exact nomatch h
              · rename_i nts u2 c2 hnt
                injection h with h1
                simp only [Prod.mk.injEq] at h1
                obtain ⟨h2, h3, h4⟩ := h1
                subst h2
                constructor
                · constructor
                  · intro hk
                    exact absurd hk (by intro hx; exact nomatch hx)
                  · rintro ⟨u', t', hl, hbr⟩
                    obtain ⟨h7, h8⟩ := lex_det hlex hl
                    subst h8
                    exact absurd hbr hnbrace
                · intro _
                  rfl
    · exact nomatch h

/-- C2 witness: instantiating `c2_amended_thm` on the parse of `a 42`
(after the initial prefetch) — the node's kind is not Node and the token
after the name is the NUMBER 42, not `{`. -/
theorem c2_amended_witness :
    ((YNode.mk ("a".toList) [] (YValue.integer 42)).value.kind = YKind.node ↔
        ∃ u' t', lex_token ⟨"a 42".toList, 0, 1, 0⟩ = Res.ok (u', t') ∧
          t'.kind = TKind.sym lbrace) ∧
    ((∃ u' t', lex_token ⟨"a 42".toList, 0, 1, 0⟩ = Res.ok (u', t') ∧
        t'.kind ≠ TKind.sym lbrace ∧ t'.kind ≠ TKind.number ∧ t'.kind ≠ TKind.string) →
      (YNode.mk ("a".toList) [] (YValue.integer 42)).value = YValue.none) :=
  c2_amended_thm (parseFuel ("a 42".toList)) ⟨"a 42".toList, 0, 1, 0⟩
    ⟨.text, .str ("a".toList)⟩ (.mk ("a".toList) [] (.integer 42))
    ⟨"a 42".toList, 0, 5, 0⟩ ⟨.none, .none⟩ rfl

/-- C3 (amended): when a non-final TEXT segment matches a node whose value
kind is None, the descent does proceed structurally — the union's zeroed
bytes are a null child pointer, an empty sibling list — so the next
segment's scan fails and `find` returns the absent result, with no fatal
error raised by the walk itself (the hypotheses only require that lexing
the rest of the path does not hit a lexical fatal; the following token
`t2` is arbitrary).  For a matched non-container holding a scalar the
claim fails: see the counterexample, where the result is undefined
behaviour, not absence. -/
theorem c3_amended_thm :
    ∀ (fuel : Nat) (u ua ub : UnitS) (cur nxt t2 : Token) (ns : List YNode) (n : YNode),
      cur.kind = .text →
      lex_token u = .ok (ua, nxt) →
      scanName ns (tokStr cur) = some n →
      n.value = YValue.none →
      nxt.kind = .text →
      lex_token ua = .ok (ub, t2) →
      findLoop (fuel + 2) u cur ns = .notFound := by
  intro fuel u ua ub cur nxt t2 ns n hcur hlex hscan hval hnxt hlex2
  rw [findLoop, if_pos hcur, hlex]
  dsimp only
  rw [hscan]
  dsimp only
  rw [if_neg (by rw [hnxt]; exact fun hx => nomatch hx)]
  rw [hval]
  dsimp only [descend]
  rw [findLoop, if_pos hnxt, hlex2]
  rfl

/-- C3 witness: on the forest loaded from the bare root `r` (value None),
the path `r x` descends through `r`'s empty child list and returns the
absent result. -/
theorem c3_amended_witness :
    y_find ⟨[.mk ("r".toList) [] .none]⟩ ("r x".toList) = .notFound :=
  c3_amended_thm 3 ⟨"r x".toList, 0, 1, 0⟩ ⟨"r x".toList, 0, 3, 0⟩
    ⟨"r x".toList, 0, 4, 0⟩ ⟨.text, .str ("r".toList)⟩ ⟨.text, .str ("x".toList)⟩
    ⟨.none, .none⟩ [.mk ("r".toList) [] .none] (.mk ("r".toList) [] .none)
    rfl rfl rfl rfl rfl rfl

/-- C8: `find` terminates early on the first failing segment.  If the
current TEXT segment matches a node, the descent produces children `cs`,
and the next TEXT segment has no match in `cs`, then the walk returns the
absent result — and the token `t2` prefetched after the failing segment is
UNCONSTRAINED: whatever the remaining path holds, it is never scanned
against the tree, so the remaining segments are not consumed or resolved. -/
theorem c8_early_term :
    ∀ (fuel : Nat) (u ua ub : UnitS) (cur nxt t2 : Token) (ns cs : List YNode) (n : YNode),
      cur.kind = .text →
      lex_token u = .ok (ua, nxt) →
      scanName ns (tokStr cur) = some n →
      descend n.value = some cs →
      nxt.kind = .text →
      scanName cs (tokStr nxt) = Option.none →
      lex_token ua = .ok (ub, t2) →
      findLoop (fuel + 2) u cur ns = .notFound := by
  intro fuel u ua ub cur nxt t2 ns cs n hcur hlex hscan hdesc hnxt hfail hlex2
  rw [findLoop, if_pos hcur, hlex]
  dsimp only
  rw [hscan]
  dsimp only
  rw [if_neg (by rw [hnxt]; exact fun hx => nomatch hx)]
  rw [hdesc]
  dsimp only
  rw [findLoop, if_pos hnxt, hlex2]
  dsimp only
  rw [hfail]

/-- C8 witness: with root `x { a 1 }` loaded, the path `x y z` fails at
`y` and returns the absent result; the third segment `z` is the
unconstrained prefetched token of the theorem. -/
theorem c8_early_term_witness :
    y_find ⟨[.mk ("x".toList) [] (.node [.mk ("a".toList) [] (.integer 1)])]⟩
      ("x y z".toList) = .notFound :=
  c8_early_term 5 ⟨"x y z".toList, 0, 1, 0⟩ ⟨"x y z".toList, 0, 3, 0⟩
    ⟨"x y z".toList, 0, 5, 0⟩ ⟨.text, .str ("x".toList)⟩ ⟨.text, .str ("y".toList)⟩
    ⟨.text, .str ("z".toList)⟩
    [.mk ("x".toList) [] (.node [.mk ("a".toList) [] (.integer 1)])]
    [.mk ("a".toList) [] (.integer 1)]
    (.mk ("x".toList) [] (.node [.mk ("a".toList) [] (.integer 1)]))
    rfl rfl rfl rfl rfl rfl rfl

/-- C10: on a freshly created context, `find` returns the absent result for
every path whose first token lexes as a TEXT segment (and whose following
token lexes without a fatal — the prefetch happens before the scan): the
scan list is the zero-initialised sentinel alone, whose name has length 0
and whose `next` link is null, while every lexed TEXT segment has length at
least 1, so no segment can match it. -/
theorem c10_fresh_absent :
    ∀ (s : List Char) (u1 ua : UnitS) (t1 t2 : Token),
      lex_token (initUnit s) = .ok (u1, t1) →
      t1.kind = .text →
      lex_token u1 = .ok (ua, t2) →
      y_find y_create s = .notFound := by
  intro s u1 ua t1 t2 hlex1 ht hlex2
  unfold y_find
  rw [hlex1]
  dsimp only
  rw [show topScan y_create = [sentinel] from rfl]
  have h2 : s.length + 2 = (s.length + 1) + 1 := rfl
  rw [h2, findLoop, if_pos ht, hlex2]
  dsimp only
  have hne : 1 ≤ (tokStr t1).length := ((lex_token_shape hlex1).2.2 ht).2
  rw [scanName, if_neg (by rintro ⟨hl, h3⟩; rw [show sentinel.name = [] from rfl] at hl; simp only [List.length_nil] at hl; omega)]
  rfl

/-- C10 witness: `find` on a fresh context with the two-segment path
`a b` returns the absent result. -/
theorem c10_fresh_absent_witness :
    y_find y_create ("a b".toList) = .notFound :=
  c10_fresh_absent ("a b".toList) ⟨"a b".toList, 0, 1, 0⟩ ⟨"a b".toList, 0, 3, 0⟩
    ⟨.text, .str ("a".toList)⟩ ⟨.text, .str ("b".toList)⟩ rfl rfl rfl

/-- C9: annotations attach in encounter order — `n @a @b` parses to the
note list `[a, b]` — and `y_has` scans that list in order: it is the first
note matching by exact length and byte content (`List.find?` on name
equality, for the NUL-free names the lexer produces, so duplicates resolve
to the first occurrence), and it is absent exactly when no note matches. -/
theorem c9_notes :
    parse_unit ("n @a @b".toList) =
      .ok (.mk ("n".toList) [⟨"a".toList⟩, ⟨"b".toList⟩] .none) ∧
    y_has (.mk ("n".toList) [⟨"a".toList⟩, ⟨"b".toList⟩] .none) ("a".toList) =
      some ⟨"a".toList⟩ ∧
    y_has (.mk ("n".toList) [⟨"a".toList⟩, ⟨"b".toList⟩] .none) ("b".toList) =
      some ⟨"b".toList⟩ ∧
    y_has (.mk ("n".toList) [⟨"a".toList⟩, ⟨"b".toList⟩] .none) ("c".toList) =
      Option.none ∧
    (∀ (node : YNode) (q : List Char), (∀ nt ∈ node.note, nulChar ∉ nt.name) →
      y_has node q = node.note.find? (fun nt => nt.name == q)) :=
  ⟨rfl, rfl, rfl, rfl, fun node q hnul => y_has_scan_find node.note q hnul⟩

/-- C9 witness: instantiating the general conjunct of `c9_notes` on the
parsed node `n @a @b` and the query `a`. -/
theorem c9_notes_witness :
    y_has (.mk ("n".toList) [⟨"a".toList⟩, ⟨"b".toList⟩] .none) ("a".toList) =
      ([⟨"a".toList⟩, ⟨"b".toList⟩] : List YNote).find? (fun nt => nt.name == "a".toList) :=
  c9_notes.2.2.2.2 (.mk ("n".toList) [⟨"a".toList⟩, ⟨"b".toList⟩] .none) ("a".toList)
    (by decide)

/-- C6 (amended): for an integer literal — a maximal run of `k` digit/
underscore bytes with no dot, ended by a non-numeric byte that does not
open a comment — the scanner accepts the whole run into the token, but the
decoded Integer value is `strtoull`'s result: the base-10 value of the
literal's maximal LEADING digit-only prefix, clamped to `2^64 - 1`;
decoding stops at the first underscore, so `1_000` decodes to 1, not
1000. -/
theorem c6_amended_thm :
    ∀ (u : UnitS) (b k : Nat),
      u.cursor = b + 1 →
      1 ≤ k →
      (∀ j, j < k → isNumChar (bufGet u.data (b + j)) = true ∧ bufGet u.data (b + j) ≠ '.') →
      isNumChar (bufGet u.data (b + k)) = false →
      ¬(bufGet u.data (b + k) = '/' ∧ bufGet u.data (b + k + 1) = '/') →
      token_number u b = .ok ({ u with cursor := b + k },
        ⟨.number, .integer
          (min (digitsVal ((extractS u.data b (b + k)).takeWhile Char.isDigit))
            (2 ^ 64 - 1))⟩) := by
  intro u b k hc hk hrun hterm hsl
  have hfuel : k + 1 ≤ u.data.length + 2 := by
    have h1 := (hrun (k - 1) (by omega)).1
    have h2 : bufGet u.data (b + (k - 1)) ≠ nulChar := by
      intro hx
      rw [hx] at h1
      exact absurd h1 (by decide)
    have h3 := bufGet_ne_nul_lt h2
    omega
  have hloop := numberLoop_run k (u.data.length + 2) u b false hc hfuel hrun hterm hsl
  unfold token_number
  rw [hloop]
  rfl

/-- C6 witness: the literal `1_000` — run length 5, NUL terminator — whose
decoded Integer value is 1. -/
theorem c6_amended_witness :
    token_number ⟨"1_000".toList, 0, 1, 0⟩ 0 =
      .ok (⟨"1_000".toList, 0, 5, 0⟩, ⟨.number, .integer 1⟩) :=
  (c6_amended_thm ⟨"1_000".toList, 0, 1, 0⟩ 0 5 rfl (by omega) (by decide) (by decide)
    (by decide)).trans rfl

end LibY
